import Mathlib

/-!
# A shallow embedding of the parsenv library

parsenv populates the fields of a configuration record from process
environment variables.  This file embeds the library's Go source
(parsenv.go: Load, parseTag, changeNameCase, parseValue, and the
errors.Join aggregation used by Load) into Lean and proves the spec's
claims about it.

Modelling conventions:
* Go strings are Lean String (a structure over List Char); strings.Split
  with a one-character separator is modelled by splitList / splitOnChar.
* The process environment is a function String → Option String
  (present/absent distinguished, as the real environment does);
  os.Getenv is getenv, which returns "" for an absent variable.
* A record is the ordered list of its fields paired with their current
  values; reflection over struct fields is the list structure itself.
* panic is modelled as Except.error (it aborts the whole Load);
  the error value returned by Load is Option GoErr, where GoErr mirrors
  the trees built by errors.Join as used in Load.
* strconv.Atoi and strconv.ParseFloat are modelled by goAtoi and
  goParseFloat: Atoi with full base-10 syntax and the 64-bit range check,
  ParseFloat restricted to decimal mantissa/exponent forms with exact
  rational semantics (rounding to float64, inf/nan/hex/underscore forms
  are outside every input considered here).
* unicode.IsLower / IsUpper / ToUpper agree with Char.isLower /
  Char.isUpper / Char.toUpper on all ASCII inputs, the only inputs the
  claims exercise.
-/

namespace Parsenv

/-- Propositional equality of Except values is decidable whenever both
component types have decidable equality (needed to evaluate concrete
runs of the model with decide). -/
instance {ε α : Type} [DecidableEq ε] [DecidableEq α] : DecidableEq (Except ε α) := fun
  | .ok a, .ok b =>
    if h : a = b then .isTrue (by rw [h])
    else .isFalse (by intro hh; cases hh; exact h rfl)
  | .ok _, .error _ => .isFalse (by intro h; cases h)
  | .error _, .ok _ => .isFalse (by intro h; cases h)
  | .error e, .error f =>
    if h : e = f then .isTrue (by rw [h])
    else .isFalse (by intro hh; cases hh; exact h rfl)

/-- Models strings.Split with a single-character separator sep. -/
def splitList (sep : Char) : List Char → List (List Char)
  | [] => [[]]
  | c :: rest =>
    match splitList sep rest with
    | [] => [[c]]
    | w :: ws => if c = sep then [] :: w :: ws else (c :: w) :: ws

/-- String-level wrapper for splitList. -/
def splitOnChar (sep : Char) (s : String) : List String :=
  (splitList sep s.data).map String.mk

/-- The TagData struct of parsenv: the parsed form of one cfg tag. -/
structure TagData where
  Name : String := ""
  Default : String := ""
  Required : Bool := false
  Ignored : Bool := false
deriving DecidableEq

/-- One iteration of the loop body of parseTag: processes a single
semicolon-separated property of the raw tag.  A panic in the Go code is
an Except.error here. -/
def parseProperty (td : TagData) (rawProperty : String) : Except String TagData :=
  match splitOnChar '=' rawProperty with
  | [bare] =>
    if bare = "-" then .ok { td with Ignored := true }
    else if bare = "required" then .ok { td with Required := true }
    else .ok td
  | [key, val] =>
    if key = "name" then .ok { td with Name := val }
    else if key = "default" then .ok { td with Default := val }
    else .error ("unknown property in cfg tag: " ++ key)
  | _ => .error ("invalid format for property in cfg tag: " ++ rawProperty)

/-- The loop of parseTag over the ;-separated properties, left to right. -/
def parseProps : List String → TagData → Except String TagData
  | [], td => .ok td
  | p :: ps, td =>
    match parseProperty td p with
    | .error msg => .error msg
    | .ok td' => parseProps ps td'

/-- parseTag of parsenv.go: parses a raw cfg tag into a TagData. -/
def parseTag (rawTag : String) : Except String TagData :=
  if rawTag = "" then .ok {} else parseProps (splitOnChar ';' rawTag) {}

/-- The word-boundary indices appended by the scanning loop of
changeNameCase: every i+1 with runes[i] lowercase and runes[i+1]
uppercase, in increasing order. -/
def innerIdxs (rs : List Char) : List Nat :=
  ((List.range (rs.length - 1)).filter fun i =>
    (rs.getD i ' ').isLower && (rs.getD (i + 1) ' ').isUpper).map (· + 1)

/-- caseChangeIdxs of changeNameCase: starts at 0, then the boundaries. -/
def caseChangeIdxs (rs : List Char) : List Nat := 0 :: innerIdxs rs

/-- The two output loops of changeNameCase: for each consecutive pair of
indices write the upper-cased segment followed by an underscore, then
write the upper-cased final segment. -/
def buildSegments (rs : List Char) : List Nat → List Char
  | [] => []
  | [s] => (rs.drop s).map Char.toUpper
  | s :: e :: rest =>
    ((rs.drop s).take (e - s)).map Char.toUpper ++ '_' :: buildSegments rs (e :: rest)

/-- changeNameCase of parsenv.go: camelCase / PascalCase to
SCREAMING_SNAKE_CASE. -/
def changeNameCase (name : String) : String :=
  String.mk (buildSegments name.data (caseChangeIdxs name.data))

/-- The reflect.Kind of a field, restricted to the kinds that occur:
string, int, float64 are the supported ones, bool stands for any
unsupported kind (the example code uses bool fields). -/
inductive Kind where
  | kString
  | kInt
  | kFloat
  | kBool
deriving DecidableEq

/-- A typed field value. Floats carry the exact rational the string
parser produced (float64 rounding is irrelevant to every claim). -/
inductive Value where
  | vstr (s : String)
  | vint (n : Int)
  | vfloat (q : ℚ)
  | vbool (b : Bool)
deriving DecidableEq

/-- A per-field recoverable error: the missing-required error built by
Load (carrying the field's declared name), or a strconv NumError from a
failed coercion (function, input, reason). -/
inductive FieldError where
  | missingRequired (fieldName : String)
  | coercion (fn : String) (num : String) (reason : String)
deriving DecidableEq

/-- The error trees built by errors.Join as called from Load.  Load only
ever calls errors.Join with exactly two arguments, so every reachable
joinError wraps one or two children. -/
inductive GoErr where
  | leaf (e : FieldError)
  | join1 (a : GoErr)
  | join2 (a : GoErr) (b : GoErr)
deriving DecidableEq

/-- errors.Join(err, perr) as used in Load: nil when both arguments are
nil, otherwise a fresh joinError wrapping the non-nil arguments. -/
def errJoin (a : Option GoErr) (b : Option FieldError) : Option GoErr :=
  match a, b with
  | none, none => none
  | some x, none => some (.join1 x)
  | none, some y => some (.join1 (.leaf y))
  | some x, some y => some (.join2 x (.leaf y))

/-- Recursively unwrapping a joined error into its leaf errors, left to
right (the order errors.Is / errors.As traverse). -/
def flatten : GoErr → List FieldError
  | .leaf e => [e]
  | .join1 a => flatten a
  | .join2 a b => flatten a ++ flatten b

/-- flatten lifted to the possibly-nil error Load returns. -/
def flattenOpt : Option GoErr → List FieldError
  | none => []
  | some g => flatten g

/-- The numeric value of a digit string (caller checks digits). -/
def digitsVal (cs : List Char) : Nat :=
  cs.foldl (fun a c => a * 10 + (c.toNat - 48)) 0

/-- Models strconv.Atoi: optional sign, one or more decimal digits,
64-bit range check.  Returns the Go pair: on a syntax error the value 0,
on a range error the clamped value, together with the NumError. -/
def goAtoi (s : String) : Int × Option FieldError :=
  let (neg, ds) :=
    match s.data with
    | '+' :: rest => (false, rest)
    | '-' :: rest => (true, rest)
    | cs => (false, cs)
  if ds.isEmpty then (0, some (.coercion "Atoi" s "invalid syntax"))
  else if ds.all Char.isDigit then
    let n := digitsVal ds
    if neg then
      if n ≤ 9223372036854775808 then (-(n : Int), none)
      else (-9223372036854775808, some (.coercion "Atoi" s "value out of range"))
    else
      if n ≤ 9223372036854775807 then ((n : Int), none)
      else (9223372036854775807, some (.coercion "Atoi" s "value out of range"))
  else (0, some (.coercion "Atoi" s "invalid syntax"))

/-- The exponent suffix of a decimal float: optional sign then one or
more digits; the result scales the signed mantissa numerator mantNum
over 10 ^ fl by the matching power of ten (one mkRat keeps the value
kernel-computable). -/
def goParseFloatExp (s : String) (mantNum : Int) (fl : Nat) (r : List Char) :
    ℚ × Option FieldError :=
  let (eneg, es) :=
    match r with
    | '+' :: rest => (false, rest)
    | '-' :: rest => (true, rest)
    | cs => (false, cs)
  if es.isEmpty then (0, some (.coercion "ParseFloat" s "invalid syntax"))
  else if es.all Char.isDigit then
    let e := digitsVal es
    if eneg then (mkRat mantNum ((10 : Nat) ^ fl * (10 : Nat) ^ e), none)
    else (mkRat (mantNum * (10 : Int) ^ e) ((10 : Nat) ^ fl), none)
  else (0, some (.coercion "ParseFloat" s "invalid syntax"))

/-- Models strconv.ParseFloat on decimal forms: optional sign, a
mantissa with at least one digit (digits, digits.digits, digits., or
.digits), and an optional exponent part with at least one digit.  The
result is the exact rational value; on a syntax error the Go pair
(0, NumError). -/
def goParseFloat (s : String) : ℚ × Option FieldError :=
  let bad : ℚ × Option FieldError := (0, some (.coercion "ParseFloat" s "invalid syntax"))
  let (neg, cs) :=
    match s.data with
    | '+' :: rest => (false, rest)
    | '-' :: rest => (true, rest)
    | cs => (false, cs)
  let intPart := cs.takeWhile Char.isDigit
  let rest1 := cs.dropWhile Char.isDigit
  let (fracPart, rest2) :=
    match rest1 with
    | '.' :: r => (r.takeWhile Char.isDigit, r.dropWhile Char.isDigit)
    | r => ([], r)
  if intPart.isEmpty && fracPart.isEmpty then bad
  else
    let mantNum : Int := (if neg then -1 else 1) * (digitsVal (intPart ++ fracPart) : Int)
    match rest2 with
    | [] => (mkRat mantNum ((10 : Nat) ^ fracPart.length), none)
    | 'e' :: r => goParseFloatExp s mantNum fracPart.length r
    | 'E' :: r => goParseFloatExp s mantNum fracPart.length r
    | _ => bad

/-- parseValue of parsenv.go: coerce a raw string to the field's kind.
The panic on an unsupported kind is an Except.error; for a supported
kind the Go pair (value, error) is returned, where the value is what
strconv produced even when the error is non-nil. -/
def parseValue (kind : Kind) (val : String) : Except String (Value × Option FieldError) :=
  match kind with
  | .kString => .ok (.vstr val, none)
  | .kInt => let p := goAtoi val; .ok (.vint p.1, p.2)
  | .kFloat => let p := goParseFloat val; .ok (.vfloat p.1, p.2)
  | .kBool => .error "only the types string, int, and float64 are supported"

/-- One field descriptor as reflection presents it to Load: declared
name, declared kind, raw cfg tag. -/
structure Field where
  name : String
  kind : Kind
  tag : String
deriving DecidableEq

/-- A record is its ordered fields with their current values. -/
abbrev Record := List (Field × Value)

/-- The process environment: name to value, absent names are none. -/
abbrev Env := String → Option String

/-- os.Getenv: the value bound to the name, or "" when absent. -/
def getenv (env : Env) (n : String) : String := (env n).getD ""

/-- Lines 171-175 of Load: the derived name, replaced wholesale by the
tag's name override when one is set. -/
def resolvedName (f : Field) (td : TagData) : String :=
  if td.Name ≠ "" then td.Name else changeNameCase f.name

/-- The body of Load's per-field loop: parse the tag (a panic aborts),
then either skip (ignored), coerce-and-write the non-empty environment
value, coerce-and-write the non-empty default, record the
missing-required error, or do nothing.  Returns the field's new value
together with the list of second arguments of the errors.Join calls the
iteration performed (at most one). -/
def loadField (env : Env) (f : Field) (cur : Value) :
    Except String (Value × List (Option FieldError)) :=
  match parseTag f.tag with
  | .error msg => .error msg
  | .ok td =>
    if td.Ignored then
      .ok (cur, [])
    else
      let strVal := getenv env (resolvedName f td)
      if strVal ≠ "" then
        match parseValue f.kind strVal with
        | .error msg => .error msg
        | .ok (optVal, perr) => .ok (optVal, [perr])
      else if td.Default ≠ "" then
        match parseValue f.kind td.Default with
        | .error msg => .error msg
        | .ok (optVal, perr) => .ok (optVal, [perr])
      else if td.Required then
        .ok (cur, [some (.missingRequired f.name)])
      else
        .ok (cur, [])

/-- Load's loop over the remaining fields, threading the accumulated
errors.Join value exactly as the Go code threads err. -/
def loadAux (env : Env) (acc : Option GoErr) : Record → Except String (Record × Option GoErr)
  | [] => .ok ([], acc)
  | (f, v) :: rest =>
    match loadField env f v with
    | .error msg => .error msg
    | .ok (v', joins) =>
      match loadAux env (joins.foldl errJoin acc) rest with
      | .error msg => .error msg
      | .ok (rest', e) => .ok ((f, v') :: rest', e)

/-- Load of parsenv.go (lines 164-193): processes every field in
declaration order and returns the mutated record with the aggregated
error (none on success).  A panic (bad tag, unsupported kind) is the
Except.error case and aborts the whole call. -/
def Load (env : Env) (r : Record) : Except String (Record × Option GoErr) :=
  loadAux env none r

/-- The per-field error list: what loadField contributes to the
aggregate for one field (empty when the field is skipped or succeeds). -/
def fieldErrList (env : Env) (fv : Field × Value) : List FieldError :=
  match loadField env fv.1 fv.2 with
  | .ok (_, js) => js.reduceOption
  | .error _ => []

/-- The value a field holds after its loop iteration. -/
def newValueOf (env : Env) (fv : Field × Value) : Value :=
  match loadField env fv.1 fv.2 with
  | .ok (v', _) => v'
  | .error _ => fv.2

/-- Modelled from the spec's Name Deriver description: a new word starts
exactly where a lowercase character is immediately followed by an
uppercase one. -/
def specWords : List Char → List (List Char)
  | [] => [[]]
  | [c] => [[c]]
  | a :: b :: rest =>
    if a.isLower && b.isUpper then [a] :: specWords (b :: rest)
    else
      match specWords (b :: rest) with
      | [] => [[a]]
      | w :: ws => (a :: w) :: ws

/-- Modelled from the spec's Name Deriver description: join the words
with single underscores. -/
def specJoin : List (List Char) → List Char
  | [] => []
  | [w] => w
  | w :: ws => w ++ '_' :: specJoin ws

/-- Modelled from the spec's Name Deriver description: upper-case every
word and join with underscores. -/
def deriveNameSpec (name : String) : String :=
  String.mk (specJoin ((specWords name.data).map (List.map Char.toUpper)))

/-! Concrete environments and fields used to instantiate the claims. -/

/-- An empty environment. -/
def envNone : Env := fun _ => none

/-- An environment binding every name to a value. -/
def envAll : Env := fun _ => some "42"

/-- Environment with FOO bound to a non-integer string. -/
def envFoo : Env := fun n => if n = "FOO" then some "13.37" else none

/-- Environment with BAZ (the derived name) bound but not bAz (the
override name). -/
def envBaz : Env := fun n => if n = "BAZ" then some "13.37" else none

/-- Environment where FOO is present but bound to the empty string. -/
def envEmptyFoo : Env := fun n => if n = "FOO" then some "" else none

/-- An int field named Foo with no tag. -/
def fooField : Field := { name := "Foo", kind := .kInt, tag := "" }

/-- The float field of the spec's precedence example. -/
def bazField : Field := { name := "Baz", kind := .kFloat, tag := "name=bAz;default=6.97" }

/-- A field of unsupported (bool) type with no tag. -/
def quxField : Field := { name := "Qux", kind := .kBool, tag := "" }

/-- A required string field named bar. -/
def barField : Field := { name := "bar", kind := .kString, tag := "required" }

/-- A required string field with a name override. -/
def oofField : Field := { name := "oof", kind := .kString, tag := "name=oOF;required" }

/-- An int field with a default. -/
def defField : Field := { name := "Foo", kind := .kInt, tag := "default=7" }

/-- A field whose tag sets both ignored and required. -/
def ignoredField : Field := { name := "Skip", kind := .kInt, tag := "-;required" }

/-- A field with an unknown key in its tag. -/
def badTagField : Field := { name := "Bad", kind := .kInt, tag := "name=FOO;bogus=1" }

/-- A bool field with a default configured. -/
def boolDefField : Field := { name := "Qux", kind := .kBool, tag := "default=yes" }

/-- An int field whose configured default is not an integer. -/
def badDefField : Field := { name := "Foo", kind := .kInt, tag := "default=oops" }

/-! ## Helper lemmas about splitting -/

theorem mk_data (s : String) : String.mk s.data = s := rfl

theorem splitList_ne_nil (sep : Char) (xs : List Char) : splitList sep xs ≠ [] := by
  induction xs with
  | nil => simp [splitList]
  | cons c rest ih =>
    simp only [splitList]
    split
    · simp
    · split <;> simp

theorem splitList_of_not_mem {sep : Char} {xs : List Char} (h : sep ∉ xs) :
    splitList sep xs = [xs] := by
  induction xs with
  | nil => rfl
  | cons c rest ih =>
    have hc : ¬(c = sep) := fun hh => h (hh ▸ List.mem_cons_self c rest)
    have hr : sep ∉ rest := fun hh => h (List.mem_cons_of_mem _ hh)
    simp only [splitList, ih hr, if_neg hc]

theorem splitList_append (sep : Char) (xs ys : List Char) :
    splitList sep (xs ++ sep :: ys) = splitList sep xs ++ splitList sep ys := by
  induction xs with
  | nil =>
    simp only [List.nil_append, splitList]
    cases h : splitList sep ys with
    | nil => exact absurd h (splitList_ne_nil sep ys)
    | cons w ws => simp
  | cons c xs ih =>
    simp only [List.cons_append, splitList, List.append_eq, ih]
    cases h : splitList sep xs with
    | nil => exact absurd h (splitList_ne_nil sep xs)
    | cons w ws =>
      simp only [List.cons_append]
      split <;> simp

theorem splitOnChar_of_not_mem {sep : Char} {s : String} (h : sep ∉ s.data) :
    splitOnChar sep s = [s] := by
  simp [splitOnChar, splitList_of_not_mem h, mk_data]

/-! ## Helper lemmas about the tag parser -/

theorem parseProperty_bare {td : TagData} {p : String} (h1 : p ≠ "-") (h2 : p ≠ "required")
    (h : '=' ∉ p.data) : parseProperty td p = .ok td := by
  simp only [parseProperty, splitOnChar_of_not_mem h, if_neg h1, if_neg h2]

theorem data_append_eq (k v : String) (c : Char) :
    (k ++ String.mk [c] ++ v).data = k.data ++ c :: v.data := by
  simp [String.data_append]

theorem parseProperty_keyval {td : TagData} (k v : String) (hk : '=' ∉ k.data)
    (hv : '=' ∉ v.data) :
    parseProperty td (k ++ "=" ++ v) =
      if k = "name" then .ok { td with Name := v }
      else if k = "default" then .ok { td with Default := v }
      else .error ("unknown property in cfg tag: " ++ k) := by
  have hdata : (k ++ "=" ++ v).data = k.data ++ '=' :: v.data := data_append_eq k v '='
  simp only [parseProperty, splitOnChar, hdata, splitList_append,
    splitList_of_not_mem hk, splitList_of_not_mem hv, List.cons_append, List.nil_append,
    List.map_cons, List.map_nil, mk_data]

theorem parseProperty_name {td : TagData} (v : String) (hv : '=' ∉ v.data) :
    parseProperty td ("name=" ++ v) = .ok { td with Name := v } := by
  have : ("name=" : String) = "name" ++ "=" := rfl
  rw [this, parseProperty_keyval "name" v (by decide) hv]
  simp

theorem parseProperty_default {td : TagData} (v : String) (hv : '=' ∉ v.data) :
    parseProperty td ("default=" ++ v) = .ok { td with Default := v } := by
  have : ("default=" : String) = "default" ++ "=" := rfl
  rw [this, parseProperty_keyval "default" v (by decide) hv]
  simp

theorem parseProperty_long {td : TagData} {p : String}
    (h : 3 ≤ (splitOnChar '=' p).length) :
    parseProperty td p = .error ("invalid format for property in cfg tag: " ++ p) := by
  unfold parseProperty
  match hs : splitOnChar '=' p with
  | [] => rfl
  | [a] => rw [hs] at h; simp at h
  | [a, b] => rw [hs] at h; simp at h
  | a :: b :: c :: rest => rfl

theorem parseProps_append (ps qs : List String) (td : TagData) :
    parseProps (ps ++ qs) td =
      match parseProps ps td with
      | .error m => .error m
      | .ok td' => parseProps qs td' := by
  induction ps generalizing td with
  | nil => rfl
  | cons p ps ih =>
    simp only [List.cons_append, parseProps]
    cases hp : parseProperty td p with
    | error m => rfl
    | ok td' => exact ih td'

theorem parseProps_singleton (p : String) (td : TagData) :
    parseProps [p] td = parseProperty td p := by
  simp only [parseProps]
  cases hp : parseProperty td p <;> rfl

/-! ## Helper lemmas about error aggregation -/

theorem flatten_ne_nil : ∀ g : GoErr, flatten g ≠ []
  | .leaf e => by simp [flatten]
  | .join1 a => by simpa [flatten] using flatten_ne_nil a
  | .join2 a b => fun h => flatten_ne_nil a (List.append_eq_nil.mp h).1

theorem flattenOpt_eq_nil_iff (e : Option GoErr) : flattenOpt e = [] ↔ e = none := by
  cases e with
  | none => simp [flattenOpt]
  | some g => simp [flattenOpt, flatten_ne_nil g]

theorem flattenOpt_errJoin (a : Option GoErr) (b : Option FieldError) :
    flattenOpt (errJoin a b) = flattenOpt a ++ b.toList := by
  cases a <;> cases b <;> simp [errJoin, flattenOpt, flatten]

theorem flattenOpt_foldl (js : List (Option FieldError)) (acc : Option GoErr) :
    flattenOpt (js.foldl errJoin acc) = flattenOpt acc ++ js.reduceOption := by
  induction js generalizing acc with
  | nil => simp [List.reduceOption]
  | cons j js ih =>
    cases j with
    | none =>
      simp only [List.foldl_cons, ih, flattenOpt_errJoin, List.reduceOption_cons_of_none]
      simp
    | some x =>
      simp only [List.foldl_cons, ih, flattenOpt_errJoin, List.reduceOption_cons_of_some]
      simp [List.append_assoc]

/-! ## Helper lemmas about the loader loop -/

theorem loadAux_ok (env : Env) :
    ∀ (r : Record) (acc : Option GoErr) (r' : Record) (e : Option GoErr),
      loadAux env acc r = .ok (r', e) →
      r' = r.map (fun fv => (fv.1, newValueOf env fv)) ∧
      flattenOpt e = flattenOpt acc ++ (r.map (fieldErrList env)).flatten := by
  intro r
  induction r with
  | nil =>
    intro acc r' e h
    simp only [loadAux, Except.ok.injEq, Prod.mk.injEq] at h
    simp [← h.1, ← h.2]
  | cons fv rest ih =>
    intro acc r' e h
    obtain ⟨f, v⟩ := fv
    simp only [loadAux] at h
    cases hlf : loadField env f v with
    | error msg => simp only [hlf] at h; cases h
    | ok p =>
      obtain ⟨v1, js⟩ := p
      simp only [hlf] at h
      cases hrest : loadAux env (js.foldl errJoin acc) rest with
      | error m => simp only [hrest] at h; cases h
      | ok q =>
        obtain ⟨r1, e1⟩ := q
        simp only [hrest, Except.ok.injEq, Prod.mk.injEq] at h
        obtain ⟨hr, he⟩ := h
        obtain ⟨ih1, ih2⟩ := ih _ _ _ hrest
        constructor
        · simp only [← hr, List.map_cons, newValueOf, hlf, ih1]
        · rw [← he, ih2, flattenOpt_foldl, List.map_cons, List.flatten_cons]
          rw [show fieldErrList env (f, v) = js.reduceOption by
            simp only [fieldErrList, hlf]]
          rw [List.append_assoc]

theorem loadField_stable {env : Env} {f : Field} {v v' : Value}
    {js : List (Option FieldError)} (h : loadField env f v = .ok (v', js)) :
    loadField env f v' = .ok (v', js) := by
  unfold loadField at h ⊢
  cases ht : parseTag f.tag with
  | error m => simp only [ht] at h; cases h
  | ok td =>
    simp only [ht] at h ⊢
    by_cases hig : td.Ignored = true
    · simp only [if_pos hig, Except.ok.injEq, Prod.mk.injEq] at h
      obtain ⟨h1, h2⟩ := h
      subst h1
      subst h2
      simp only [if_pos hig]
    · simp only [if_neg hig] at h ⊢
      by_cases hsv : getenv env (resolvedName f td) ≠ ""
      · simp only [if_pos hsv] at h ⊢
        cases hp : parseValue f.kind (getenv env (resolvedName f td)) with
        | error m => simp only [hp] at h; cases h
        | ok p => simp only [hp] at h ⊢; exact h
      · simp only [if_neg hsv] at h ⊢
        by_cases hd : td.Default ≠ ""
        · simp only [if_pos hd] at h ⊢
          cases hp : parseValue f.kind td.Default with
          | error m => simp only [hp] at h; cases h
          | ok p => simp only [hp] at h ⊢; exact h
        · simp only [if_neg hd] at h ⊢
          by_cases hrq : td.Required = true
          · simp only [if_pos hrq, Except.ok.injEq, Prod.mk.injEq] at h
            obtain ⟨h1, h2⟩ := h
            subst h1
            subst h2
            simp only [if_pos hrq]
          · simp only [if_neg hrq, Except.ok.injEq, Prod.mk.injEq] at h
            obtain ⟨h1, h2⟩ := h
            subst h1
            subst h2
            simp only [if_neg hrq]

theorem loadAux_stable (env : Env) :
    ∀ (r : Record) (acc : Option GoErr) (r' : Record) (e : Option GoErr),
      loadAux env acc r = .ok (r', e) → loadAux env acc r' = .ok (r', e) := by
  intro r
  induction r with
  | nil =>
    intro acc r' e h
    simp only [loadAux, Except.ok.injEq, Prod.mk.injEq] at h
    rw [← h.1, ← h.2]
    rfl
  | cons fv rest ih =>
    intro acc r' e h
    obtain ⟨f, v⟩ := fv
    simp only [loadAux] at h
    cases hlf : loadField env f v with
    | error msg => simp only [hlf] at h; cases h
    | ok p =>
      obtain ⟨v1, js⟩ := p
      simp only [hlf] at h
      cases hrest : loadAux env (js.foldl errJoin acc) rest with
      | error m => simp only [hrest] at h; cases h
      | ok q =>
        obtain ⟨r1, e1⟩ := q
        simp only [hrest, Except.ok.injEq, Prod.mk.injEq] at h
        obtain ⟨hr, he⟩ := h
        rw [← hr]
        simp only [loadAux, loadField_stable hlf, ih _ _ _ hrest, he]

/-! ## Helper lemmas for environment congruence -/

theorem loadField_env_eq {env env' : Env} (h : ∀ m, getenv env m = getenv env' m)
    (f : Field) (v : Value) : loadField env f v = loadField env' f v := by
  unfold loadField
  simp only [h]

theorem loadAux_env_eq {env env' : Env} (h : ∀ m, getenv env m = getenv env' m) :
    ∀ (r : Record) (acc : Option GoErr), loadAux env acc r = loadAux env' acc r := by
  intro r
  induction r with
  | nil => intro acc; rfl
  | cons fv rest ih =>
    intro acc
    obtain ⟨f, v⟩ := fv
    simp only [loadAux, loadField_env_eq h, ih]

/-! ## Helper lemmas for the name deriver -/

theorem buildSegments_shift :
    ∀ (idxs : List Nat) (c : Char) (rs : List Char),
      buildSegments (c :: rs) (idxs.map (· + 1)) = buildSegments rs idxs
  | [], _, _ => rfl
  | [s], c, rs => by
    simp only [List.map_cons, List.map_nil, buildSegments, List.drop_succ_cons]
  | s :: e :: rest, c, rs => by
    have ih := buildSegments_shift (e :: rest) c rs
    simp only [List.map_cons] at ih ⊢
    simp only [buildSegments, List.drop_succ_cons, Nat.succ_sub_succ, ih]

theorem buildSegments_cons_zero (T : List Nat) (a : Char) (rs : List Char) :
    buildSegments (a :: rs) (0 :: T.map (· + 1)) = a.toUpper :: buildSegments rs (0 :: T) := by
  cases T with
  | nil => simp [buildSegments]
  | cons t T' =>
    have hshift : buildSegments (a :: rs) ((t :: T').map (· + 1)) =
        buildSegments rs (t :: T') := buildSegments_shift (t :: T') a rs
    simp only [List.map_cons] at hshift
    simp only [List.map_cons, buildSegments, List.drop_zero, Nat.sub_zero, hshift,
      List.take_succ_cons, List.map_cons, List.cons_append]

theorem innerIdxs_cons (a b : Char) (rest : List Char) :
    innerIdxs (a :: b :: rest) =
      (if a.isLower && b.isUpper then [1] else []) ++ (innerIdxs (b :: rest)).map (· + 1) := by
  unfold innerIdxs
  simp only [List.length_cons, Nat.add_sub_cancel]
  rw [List.range_succ_eq_map, List.filter_cons, List.filter_map]
  have hpred : ((fun i => ((a :: b :: rest).getD i ' ').isLower &&
      ((a :: b :: rest).getD (i + 1) ' ').isUpper) ∘ Nat.succ) =
      fun i => ((b :: rest).getD i ' ').isLower && ((b :: rest).getD (i + 1) ' ').isUpper :=
    funext fun i => rfl
  rw [hpred]
  have hsucc : List.map Nat.succ
        (List.filter (fun i => ((b :: rest).getD i ' ').isLower &&
          ((b :: rest).getD (i + 1) ' ').isUpper) (List.range rest.length)) =
      List.map (· + 1)
        (List.filter (fun i => ((b :: rest).getD i ' ').isLower &&
          ((b :: rest).getD (i + 1) ' ').isUpper) (List.range rest.length)) := rfl
  by_cases hb : (a.isLower && b.isUpper) = true
  · have hb' : (((a :: b :: rest).getD 0 ' ').isLower &&
        ((a :: b :: rest).getD (0 + 1) ' ').isUpper) = true := hb
    rw [if_pos hb', if_pos hb, List.map_cons, hsucc, List.map_map]
    rfl
  · have hb' : ¬(((a :: b :: rest).getD 0 ' ').isLower &&
        ((a :: b :: rest).getD (0 + 1) ' ').isUpper) = true := hb
    rw [if_neg hb', if_neg hb, hsucc, List.map_map]
    rfl

theorem specWords_ne_nil : ∀ rs : List Char, specWords rs ≠ []
  | [] => by simp [specWords]
  | [c] => by simp [specWords]
  | a :: b :: rest => by
    simp only [specWords]
    split
    · simp
    · split
      · simp
      · simp

theorem specJoin_cons_head (x : Char) (w : List Char) (ws : List (List Char)) :
    specJoin ((x :: w) :: ws) = x :: specJoin (w :: ws) := by
  cases ws with
  | nil => rfl
  | cons y ys => simp [specJoin, List.cons_append]

theorem buildSegments_eq_specJoin :
    ∀ rs : List Char,
      buildSegments rs (caseChangeIdxs rs) =
        specJoin ((specWords rs).map (List.map Char.toUpper))
  | [] => rfl
  | [c] => rfl
  | a :: b :: rest => by
    have ih := buildSegments_eq_specJoin (b :: rest)
    rw [caseChangeIdxs] at ih
    have hsw : specWords (a :: b :: rest) =
        if a.isLower && b.isUpper then [a] :: specWords (b :: rest)
        else
          match specWords (b :: rest) with
          | [] => [[a]]
          | w :: ws => (a :: w) :: ws := by
      simp only [specWords]
    by_cases hb : (a.isLower && b.isUpper) = true
    · have hidx : caseChangeIdxs (a :: b :: rest) =
          0 :: 1 :: (innerIdxs (b :: rest)).map (· + 1) := by
        rw [caseChangeIdxs, innerIdxs_cons, if_pos hb, List.cons_append, List.nil_append]
      have h1 : (1 : Nat) :: (innerIdxs (b :: rest)).map (· + 1) =
          (0 :: innerIdxs (b :: rest)).map (· + 1) := by
        rw [List.map_cons]
      rw [hidx, hsw, if_pos hb]
      simp only [buildSegments, Nat.sub_zero, List.drop_zero, List.take_succ_cons,
        List.take_zero, List.map_cons, List.map_nil]
      rw [h1, buildSegments_shift, ih]
      cases hm : (specWords (b :: rest)).map (List.map Char.toUpper) with
      | nil =>
        exact absurd (List.map_eq_nil_iff.mp hm) (specWords_ne_nil (b :: rest))
      | cons w ws =>
        simp only [specJoin, List.cons_append, List.nil_append]
    · have hidx : caseChangeIdxs (a :: b :: rest) =
          0 :: (innerIdxs (b :: rest)).map (· + 1) := by
        rw [caseChangeIdxs, innerIdxs_cons, if_neg hb, List.nil_append]
      rw [hidx, buildSegments_cons_zero, ih, hsw, if_neg hb]
      cases hm : specWords (b :: rest) with
      | nil => exact absurd hm (specWords_ne_nil (b :: rest))
      | cons w ws =>
        simp only [List.map_cons]
        rw [specJoin_cons_head]

theorem changeNameCase_eq_deriveNameSpec (name : String) :
    changeNameCase name = deriveNameSpec name := by
  unfold changeNameCase deriveNameSpec
  rw [buildSegments_eq_specJoin]

/-- A parse error in a field's tag aborts the whole Load call with that
error, no matter what follows the field. -/
theorem load_tag_abort (env : Env) (f : Field) (v : Value) (rest : Record) (msg : String)
    (ht : parseTag f.tag = .error msg) : Load env ((f, v) :: rest) = .error msg := by
  unfold Load loadAux loadField
  simp only [ht]

/-! ## The claims -/

/-- C1: after Load processes all fields, the returned composite error
unwraps (recursively, left to right) into exactly the per-field errors
in field-declaration order; it is nil exactly when that list is empty;
and every field of the record is processed regardless of earlier
per-field errors (the result record maps every field to its per-field
outcome). -/
theorem claim_C1_error_aggregation (env : Env) (r r' : Record) (e : Option GoErr)
    (h : Load env r = .ok (r', e)) :
    flattenOpt e = (r.map (fieldErrList env)).flatten ∧
    (e = none ↔ (r.map (fieldErrList env)).flatten = []) ∧
    r' = r.map (fun fv => (fv.1, newValueOf env fv)) := by
  obtain ⟨h1, h2⟩ := loadAux_ok env r none r' e h
  have he : flattenOpt e = (r.map (fieldErrList env)).flatten := by
    rw [h2, flattenOpt, List.nil_append]
  refine ⟨he, ?_, h1⟩
  rw [← he]
  exact (flattenOpt_eq_nil_iff e).symm.trans (by rw [he])

theorem claim_C1_witness :
    flattenOpt (some (GoErr.join2 (.join1 (.leaf (.missingRequired "bar")))
        (.leaf (.missingRequired "oof")))) =
      ([(barField, Value.vstr ""), (oofField, Value.vstr "")].map (fieldErrList envNone)).flatten :=
  (claim_C1_error_aggregation envNone [(barField, .vstr ""), (oofField, .vstr "")]
    [(barField, .vstr ""), (oofField, .vstr "")]
    (some (.join2 (.join1 (.leaf (.missingRequired "bar"))) (.leaf (.missingRequired "oof"))))
    (by decide)).1

/-- C2 counterexample: an int field holding 5, with FOO bound to the
non-integer "13.37", is overwritten with 0 by Load (while the coercion
error is recorded), so a failed coercion does not leave the field
unchanged. -/
theorem claim_C2_counterexample :
    Load envFoo [(fooField, .vint 5)] =
      .ok ([(fooField, .vint 0)],
        some (.join1 (.leaf (.coercion "Atoi" "13.37" "invalid syntax")))) ∧
    Value.vint 0 ≠ Value.vint 5 :=
  ⟨by decide, by decide⟩

/-- C2 (amended): when the resolved value fails coercion, Load records
the coercion error but still writes the coercer's fallback value (0 for
malformed integers and floats) into the field; a field is left
untouched only when no value resolves for it (no non-empty environment
value and no non-empty default). -/
theorem claim_C2_amended (env : Env) (f : Field) (v : Value) (td : TagData)
    (val : Value) (cerr : FieldError)
    (ht : parseTag f.tag = .ok td) (hig : td.Ignored = false) :
    (getenv env (resolvedName f td) ≠ "" →
      parseValue f.kind (getenv env (resolvedName f td)) = .ok (val, some cerr) →
      loadField env f v = .ok (val, [some cerr])) ∧
    (getenv env (resolvedName f td) = "" → td.Default ≠ "" →
      parseValue f.kind td.Default = .ok (val, some cerr) →
      loadField env f v = .ok (val, [some cerr])) ∧
    (getenv env (resolvedName f td) = "" → td.Default = "" →
      loadField env f v =
        .ok (v, if td.Required then [some (.missingRequired f.name)] else [])) := by
  have hig' : ¬(td.Ignored = true) := by simp [hig]
  refine ⟨?_, ?_, ?_⟩
  · intro hsv hp
    unfold loadField
    simp only [ht, if_neg hig', if_pos hsv, hp]
  · intro hsv hd hp
    have hsv' : ¬(getenv env (resolvedName f td) ≠ "") := by simp [hsv]
    unfold loadField
    simp only [ht, if_neg hig', if_neg hsv', if_pos hd, hp]
  · intro hsv hd
    have hsv' : ¬(getenv env (resolvedName f td) ≠ "") := by simp [hsv]
    have hd' : ¬(td.Default ≠ "") := by simp [hd]
    unfold loadField
    simp only [ht, if_neg hig', if_neg hsv', if_neg hd']
    by_cases hr : td.Required = true
    · rw [if_pos hr, if_pos hr]
    · rw [if_neg hr, if_neg hr]

theorem claim_C2_witness :
    loadField envFoo fooField (.vint 5) =
      .ok (.vint 0, [some (.coercion "Atoi" "13.37" "invalid syntax")]) ∧
    loadField envNone badDefField (.vint 5) =
      .ok (.vint 0, [some (.coercion "Atoi" "oops" "invalid syntax")]) :=
  ⟨(claim_C2_amended envFoo fooField (.vint 5) {} (.vint 0)
      (.coercion "Atoi" "13.37" "invalid syntax") (by decide) rfl).1 (by decide) (by decide),
   (claim_C2_amended envNone badDefField (.vint 5) { Default := "oops" } (.vint 0)
      (.coercion "Atoi" "oops" "invalid syntax") (by decide) rfl).2.1
      (by decide) (by decide) (by decide)⟩

/-- C3: an environment variable present but bound to the empty string is
treated by Load exactly as if it were absent: the whole Load result is
unchanged when the binding is removed, so resolution falls through to
the default, the required check, and the no-op case just as for an
absent variable. -/
theorem claim_C3_empty_as_absent (env : Env) (n : String) (r : Record)
    (h : env n = some "") :
    Load env r = Load (fun m => if m = n then none else env m) r := by
  unfold Load
  refine loadAux_env_eq ?_ r none
  intro m
  unfold getenv
  by_cases hm : m = n
  · subst hm
    rw [h]
    simp
  · simp [hm]

theorem claim_C3_witness :
    Load envEmptyFoo [(defField, Value.vint 0)] =
      Load (fun m => if m = "FOO" then none else envEmptyFoo m) [(defField, Value.vint 0)] :=
  claim_C3_empty_as_absent envEmptyFoo "FOO" [(defField, Value.vint 0)] (by decide)

/-- C4: Load resolves each field by strict precedence over the resolved
name (the override replaces the derived name entirely): a non-empty
environment value wins, else a non-empty default wins even when
required is set, else required records an error.  In particular the
field Baz with tag name=bAz;default=6.97 under an environment binding
BAZ=13.37 but not bAz resolves to 6.97. -/
theorem claim_C4_precedence :
    Load envBaz [(bazField, .vfloat 0)] =
      .ok ([(bazField, .vfloat (mkRat 697 100))], none) ∧
    ∀ (env : Env) (f : Field) (v : Value) (td : TagData), parseTag f.tag = .ok td →
      td.Ignored = false →
      (getenv env (resolvedName f td) ≠ "" →
        loadField env f v =
          match parseValue f.kind (getenv env (resolvedName f td)) with
          | .error msg => .error msg
          | .ok (val, perr) => .ok (val, [perr])) ∧
      (getenv env (resolvedName f td) = "" → td.Default ≠ "" →
        loadField env f v =
          match parseValue f.kind td.Default with
          | .error msg => .error msg
          | .ok (val, perr) => .ok (val, [perr])) ∧
      (getenv env (resolvedName f td) = "" → td.Default = "" → td.Required = true →
        loadField env f v = .ok (v, [some (.missingRequired f.name)])) := by
  refine ⟨by decide, ?_⟩
  intro env f v td ht hig
  have hig' : ¬(td.Ignored = true) := by simp [hig]
  refine ⟨?_, ?_, ?_⟩
  · intro hsv
    unfold loadField
    simp only [ht, if_neg hig', if_pos hsv]
  · intro hsv hd
    have hsv' : ¬(getenv env (resolvedName f td) ≠ "") := by simp [hsv]
    unfold loadField
    simp only [ht, if_neg hig', if_neg hsv', if_pos hd]
  · intro hsv hd hr
    have hsv' : ¬(getenv env (resolvedName f td) ≠ "") := by simp [hsv]
    have hd' : ¬(td.Default ≠ "") := by simp [hd]
    unfold loadField
    simp only [ht, if_neg hig', if_neg hsv', if_neg hd', if_pos hr]

theorem claim_C4_witness :
    loadField envBaz bazField (.vfloat 0) =
      match parseValue bazField.kind "6.97" with
      | .error msg => .error msg
      | .ok (val, perr) => .ok (val, [perr]) :=
  ((claim_C4_precedence.2 envBaz bazField (.vfloat 0)
    { Name := "bAz", Default := "6.97" } (by decide) rfl).2.1 (by decide) (by decide))

/-- C5: for every non-empty identifier, changeNameCase places a word
boundary exactly where a lowercase character is immediately followed by
an uppercase one, upper-cases each segment and joins the segments with
single underscores (it agrees with the spec-modelled deriveNameSpec);
in particular the four documented examples hold. -/
theorem claim_C5_name_deriver :
    (∀ name : String, name ≠ "" → changeNameCase name = deriveNameSpec name) ∧
    changeNameCase "helloGoodWorld" = "HELLO_GOOD_WORLD" ∧
    changeNameCase "HelloGentleMoon" = "HELLO_GENTLE_MOON" ∧
    changeNameCase "someoneReallyLikesACRONYMS" = "SOMEONE_REALLY_LIKES_ACRONYMS" ∧
    changeNameCase "foo" = "FOO" :=
  ⟨fun name _ => changeNameCase_eq_deriveNameSpec name,
   by decide, by decide, by decide, by decide⟩

theorem claim_C5_witness : changeNameCase "fooBar" = deriveNameSpec "fooBar" :=
  claim_C5_name_deriver.1 "fooBar" (by decide)

/-- C6: thetag parser implements the documented grammar: the empty tag
gives all defaults, the bare tokens - and required set the matching
flags, any other bare token is a silent no-op, name= and default= set
the matching attribute, any other key is a fatal unknown-property
error, a property splitting into three or more parts on = is a fatal
invalid-format error, and a fatal tag error aborts the whole Load
immediately instead of being aggregated. -/
theorem claim_C6_directive_grammar :
    parseTag "" = .ok {} ∧
    parseTag "-" = .ok { Ignored := true } ∧
    parseTag "required" = .ok { Required := true } ∧
    (∀ (td : TagData) (p : String), p ≠ "-" → p ≠ "required" → '=' ∉ p.data →
      parseProperty td p = .ok td) ∧
    (∀ (td : TagData) (v : String), '=' ∉ v.data →
      parseProperty td ("name=" ++ v) = .ok { td with Name := v }) ∧
    (∀ (td : TagData) (v : String), '=' ∉ v.data →
      parseProperty td ("default=" ++ v) = .ok { td with Default := v }) ∧
    (∀ (td : TagData) (k v : String), '=' ∉ k.data → '=' ∉ v.data →
      k ≠ "name" → k ≠ "default" →
      parseProperty td (k ++ "=" ++ v) = .error ("unknown property in cfg tag: " ++ k)) ∧
    (∀ (td : TagData) (p : String), 3 ≤ (splitOnChar '=' p).length →
      parseProperty td p = .error ("invalid format for property in cfg tag: " ++ p)) ∧
    parseTag "name=FOO;bogus=1" = .error "unknown property in cfg tag: bogus" ∧
    parseTag "a=b=c" = .error "invalid format for property in cfg tag: a=b=c" ∧
    (∀ (env : Env) (f : Field) (v : Value) (rest : Record) (msg : String),
      parseTag f.tag = .error msg → Load env ((f, v) :: rest) = .error msg) := by
  refine ⟨by decide, by decide, by decide, ?_, ?_, ?_, ?_, ?_, by decide, by decide, ?_⟩
  · intro td p h1 h2 h
    exact parseProperty_bare h1 h2 h
  · intro td v hv
    exact parseProperty_name v hv
  · intro td v hv
    exact parseProperty_default v hv
  · intro td k v hk hv hk1 hk2
    rw [parseProperty_keyval k v hk hv, if_neg hk1, if_neg hk2]
  · intro td p h
    exact parseProperty_long h
  · intro env f v rest msg ht
    exact load_tag_abort env f v rest msg ht

theorem claim_C6_witness :
    parseProperty {} "bogus" = .ok {} ∧
    parseProperty {} ("name=" ++ "x") = .ok { Name := "x" } ∧
    parseProperty {} ("default=" ++ "7") = .ok { Default := "7" } ∧
    parseProperty {} ("bogus" ++ "=" ++ "1") =
      .error ("unknown property in cfg tag: " ++ "bogus") ∧
    parseProperty {} "a=b=c" = .error ("invalid format for property in cfg tag: " ++ "a=b=c") ∧
    Load envNone [(badTagField, Value.vint 0)] = .error "unknown property in cfg tag: bogus" :=
  ⟨claim_C6_directive_grammar.2.2.2.1 {} "bogus" (by decide) (by decide) (by decide),
   claim_C6_directive_grammar.2.2.2.2.1 {} "x" (by decide),
   claim_C6_directive_grammar.2.2.2.2.2.1 {} "7" (by decide),
   claim_C6_directive_grammar.2.2.2.2.2.2.1 {} "bogus" "1" (by decide) (by decide)
     (by decide) (by decide),
   claim_C6_directive_grammar.2.2.2.2.2.2.2.1 {} "a=b=c" (by decide),
   claim_C6_directive_grammar.2.2.2.2.2.2.2.2.2.2 envNone badTagField (.vint 0) [] _ (by decide)⟩

/-- C7: a field whose directive sets ignored is skipped entirely: its
iteration neither writes the field nor records any error, for every
environment, default and required setting (so ignored takes precedence
over required), and Load just passes the field through unchanged. -/
theorem claim_C7_ignored (env : Env) (f : Field) (v : Value) (td : TagData)
    (ht : parseTag f.tag = .ok td) (hig : td.Ignored = true) :
    loadField env f v = .ok (v, []) ∧
    ∀ rest : Record, Load env ((f, v) :: rest) =
      match Load env rest with
      | .error msg => .error msg
      | .ok (rest', e) => .ok ((f, v) :: rest', e) := by
  have h1 : loadField env f v = .ok (v, []) := by
    unfold loadField
    simp only [ht, if_pos hig]
  refine ⟨h1, fun rest => ?_⟩
  show loadAux env none ((f, v) :: rest) = _
  simp only [loadAux, h1, List.foldl_nil]
  rfl

theorem claim_C7_witness :
    loadField envAll ignoredField (.vint 7) = .ok (.vint 7, []) :=
  (claim_C7_ignored envAll ignoredField (.vint 7)
    { Required := true, Ignored := true } (by decide) rfl).1

/-- C8 counterexample: a field of unsupported (bool) type with neither
an environment value nor a default is processed by Load without any
error, so the unsupported-type failure is not raised independently of
whether a value is present. -/
theorem claim_C8_counterexample :
    Load envNone [(quxField, Value.vbool false)] =
      .ok ([(quxField, Value.vbool false)], none) := by decide

/-- C8 (amended): for a field of unsupported declared type, Load panics
with the fatal unsupported-type error (aborting the whole load, not
aggregated) exactly when a value resolves for the field: a non-empty
environment value or a non-empty default; when no value resolves, the
field is processed without a type error (only a possible
missing-required error). -/
theorem claim_C8_amended (env : Env) (f : Field) (v : Value) (rest : Record) (td : TagData)
    (hk : f.kind = .kBool) (ht : parseTag f.tag = .ok td) (hig : td.Ignored = false) :
    ((getenv env (resolvedName f td) ≠ "" ∨ td.Default ≠ "") →
      Load env ((f, v) :: rest) =
        .error "only the types string, int, and float64 are supported") ∧
    (getenv env (resolvedName f td) = "" → td.Default = "" →
      loadField env f v =
        .ok (v, if td.Required then [some (.missingRequired f.name)] else [])) := by
  have hig' : ¬(td.Ignored = true) := by simp [hig]
  constructor
  · intro hor
    have hfatal : loadField env f v =
        .error "only the types string, int, and float64 are supported" := by
      unfold loadField
      simp only [ht, if_neg hig']
      by_cases hsv : getenv env (resolvedName f td) ≠ ""
      · simp only [if_pos hsv, hk, parseValue]
      · have hd : td.Default ≠ "" := by
          rcases hor with h | h
          · exact absurd h hsv
          · exact h
        simp only [if_neg hsv, if_pos hd, hk, parseValue]
    unfold Load loadAux
    simp only [hfatal]
  · intro hsv hd
    have hsv' : ¬(getenv env (resolvedName f td) ≠ "") := by simp [hsv]
    have hd' : ¬(td.Default ≠ "") := by simp [hd]
    unfold loadField
    simp only [ht, if_neg hig', if_neg hsv', if_neg hd']
    by_cases hr : td.Required = true
    · rw [if_pos hr, if_pos hr]
    · rw [if_neg hr, if_neg hr]

theorem claim_C8_witness :
    Load envNone [(boolDefField, Value.vbool false)] =
      .error "only the types string, int, and float64 are supported" :=
  (claim_C8_amended envNone boolDefField (.vbool false) [] { Default := "yes" }
    rfl (by decide) rfl).1 (Or.inr (by decide))

/-- C9: Load keeps no state across calls: running Load again on the
record produced by a successful first call, with the same environment,
returns the same record and the same error value. -/
theorem claim_C9_idempotent (env : Env) (r r' : Record) (e : Option GoErr)
    (h : Load env r = .ok (r', e)) : Load env r' = .ok (r', e) :=
  loadAux_stable env r none r' e h

theorem claim_C9_witness :
    Load envBaz [(bazField, Value.vfloat (mkRat 697 100))] =
      .ok ([(bazField, Value.vfloat (mkRat 697 100))], none) :=
  claim_C9_idempotent envBaz [(bazField, .vfloat 0)]
    [(bazField, .vfloat (mkRat 697 100))] none (by decide)

/-- C10: a repeated recognized key in a tag raises no error and the last
occurrence wins: appending another name= or default= property overwrites
the attribute whatever the earlier properties set, and the two concrete
duplicate-key examples evaluate accordingly. -/
theorem claim_C10_last_wins :
    (∀ (td : TagData) (ps : List String) (v : String), '=' ∉ v.data →
      parseProps (ps ++ ["name=" ++ v]) td =
        match parseProps ps td with
        | .error m => .error m
        | .ok td' => .ok { td' with Name := v }) ∧
    (∀ (td : TagData) (ps : List String) (v : String), '=' ∉ v.data →
      parseProps (ps ++ ["default=" ++ v]) td =
        match parseProps ps td with
        | .error m => .error m
        | .ok td' => .ok { td' with Default := v }) ∧
    parseTag "name=a;name=b" = .ok { Name := "b" } ∧
    parseTag "default=1;default=2" = .ok { Default := "2" } := by
  refine ⟨?_, ?_, by decide, by decide⟩
  · intro td ps v hv
    rw [parseProps_append]
    cases hp : parseProps ps td with
    | error m => rfl
    | ok td' =>
      show parseProps ["name=" ++ v] td' = .ok { td' with Name := v }
      rw [parseProps_singleton]
      exact parseProperty_name v hv
  · intro td ps v hv
    rw [parseProps_append]
    cases hp : parseProps ps td with
    | error m => rfl
    | ok td' =>
      show parseProps ["default=" ++ v] td' = .ok { td' with Default := v }
      rw [parseProps_singleton]
      exact parseProperty_default v hv

theorem claim_C10_witness :
    parseProps (["name=a"] ++ ["name=" ++ "b"]) {} =
      match parseProps ["name=a"] {} with
      | .error m => .error m
      | .ok td' => .ok { td' with Name := "b" } :=
  claim_C10_last_wins.1 {} ["name=a"] "b" (by decide)

end Parsenv
